import Mathlib

/-!
Verification of `codecarbon/core/cpu.py`.

The module implements three CPU power measurement strategies:
`IntelPowerGadget` (an external logging tool whose CSV output is parsed and
aggregated), `IntelRAPL` (Linux powercap energy counters), and `TDP`
(a constant-power fallback resolved by two-stage fuzzy matching of the
detected CPU model string against a reference dataset).

External collaborators (the `fuzzywuzzy` similarity functions, the
`cpuinfo` detection facility, the reference dataset loader, the file
system and the `RAPLFile` counter reader) are modelled as parameters or
as explicit input data.  Python exceptions are modelled by `Except Unit`
(or `Option` for a single fallible helper); Python truthiness of strings
and integers is modelled explicitly.  Numeric log values are modelled by
`ℚ` (the aggregation policy is exact arithmetic over the parsed values).
-/

set_option autoImplicit false

/-- Python's `str.lower()`, modelled characterwise. -/
def pyLower (s : String) : String :=
  ⟨s.data.map Char.toLower⟩

/-- Python's `str.strip()`: drop leading and trailing whitespace. -/
def pyStrip (s : String) : String :=
  ⟨((s.data.dropWhile Char.isWhitespace).reverse.dropWhile
      Char.isWhitespace).reverse⟩

/-- Python's `str.startswith(pat)`, modelled characterwise. -/
def pyStartswith (s pat : String) : Bool :=
  pat.data.isPrefixOf s.data

/-- Python's substring test `pat in s`. -/
def strContains (s pat : String) : Bool :=
  s.toList.tails.any (fun t => pat.toList.isPrefixOf t)

/-- Python's `max` over a list of naturals; `none` models the `ValueError`
raised on an empty sequence. -/
def listMax : List Nat → Option Nat
  | [] => none
  | x :: xs =>
    match listMax xs with
    | none => some x
    | some m => some (max x m)

/-- Python's `list.index(v)`: index of the first occurrence, `none` models
the `ValueError` when the value is absent. -/
def indexOfFirst (v : Nat) : List Nat → Option Nat
  | [] => none
  | x :: xs => if x = v then some 0 else (indexOfFirst v xs).map (· + 1)

namespace IntelPowerGadget

/-- The three clock/reference columns always excluded from the result of
`IntelPowerGadget.get_cpu_details`. -/
def excludedCols : List String :=
  ["System Time", "Elapsed Time (sec)", "RDTSC"]

/-- A parsed row retains only rows with no missing value (`dropna`). -/
def dropRow (r : List (Option ℚ)) : Option (List ℚ) :=
  match r with
  | [] => some []
  | none :: _ => none
  | some x :: rest => (dropRow rest).map (x :: ·)

/-- Model of `pd.read_csv(...).dropna()`: keep only the rows with no missing value. -/
def dropna (rows : List (List (Option ℚ))) : List (List ℚ) :=
  rows.filterMap dropRow

/-- Model of `cpu_data[col_name]` for the column at position `j`. -/
def colVals (data : List (List ℚ)) (j : Nat) : List ℚ :=
  data.map (fun r => r.getD j 0)

/-- Model of `Series.mean()`: arithmetic mean (`0` stands for the NaN of an empty
column, which the claims never reach). -/
def qMean (l : List ℚ) : ℚ :=
  l.sum / (l.length : ℚ)

/-- The per-column aggregation loop of `IntelPowerGadget.get_cpu_details`:
skip the excluded columns, take the last value of a `Cumulative` column and
the mean of any other.  `iloc[-1]` on an empty column raises; the
surrounding `except` then returns the dictionary filled so far, which the
abort branch models. -/
def aggLoop (data : List (List ℚ)) :
    List (Nat × String) → List (String × ℚ) → List (String × ℚ)
  | [], acc => acc
  | (j, col_name) :: rest, acc =>
    if col_name ∈ excludedCols then aggLoop data rest acc
    else if strContains col_name "Cumulative" then
      match (colVals data j).getLast? with
      | none => acc
      | some v => aggLoop data rest (acc ++ [(col_name, v)])
    else aggLoop data rest (acc ++ [(col_name, qMean (colVals data j))])

/-- The `try` body of `IntelPowerGadget.get_cpu_details` on a successfully
read log: `dropna`, then aggregate each column. -/
def aggregate (header : List String) (rows : List (List (Option ℚ))) :
    List (String × ℚ) :=
  aggLoop (dropna rows) header.enum []

/-- Model of `IntelPowerGadget.get_cpu_details`: the read/parse outcome of
`pd.read_csv` is the input; an exception (`Except.error`) is caught and the
empty dictionary is returned. -/
def get_cpu_details
    (read : Except Unit (List String × List (List (Option ℚ)))) :
    List (String × ℚ) :=
  match read with
  | .error _ => []
  | .ok (header, rows) => aggregate header rows

end IntelPowerGadget

namespace IntelRAPL

/-- Outcomes of `IntelRAPL._setup_rapl`. -/
inductive SetupError where
  | platformUnsupported
  | sourceNotFound
deriving DecidableEq, Repr

/-- Model of `IntelRAPL._is_platform_supported`: `self._system.startswith("lin")`. -/
def is_platform_supported (system : String) : Bool :=
  pyStartswith system "lin"

/-- Model of `IntelRAPL._setup_rapl`: platform check first (`SystemError` when not
Linux), then existence of the RAPL directory (`FileNotFoundError` when
absent); on success the domain files are fetched.  File contents are part
of the input data, so the success branch cannot fail here. -/
def setup_rapl (system : String) (rapl_dir_exists : Bool) :
    Except SetupError Unit :=
  if is_platform_supported system then
    if rapl_dir_exists then .ok ()
    else .error .sourceNotFound
  else .error .platformUnsupported

/-- The renaming loop of `IntelRAPL._fetch_rapl_files`: each entry is the
stripped contents of a domain's `name` file; a name containing `package`
becomes `Processor Power_<i>(Watt)` for the running counter `i`. -/
def renameLoop : List String → Nat → List String
  | [], _ => []
  | name :: rest, i =>
    if strContains (pyStrip name) "package" then
      ("Processor Power_" ++ toString i ++ "(Watt)") :: renameLoop rest (i + 1)
    else pyStrip name :: renameLoop rest i

/-- Model of `IntelRAPL._fetch_rapl_files`, restricted to the names it produces:
directory entries (paired with their `name`-file contents) are filtered to
those whose identifier contains `:`, then renamed. -/
def fetch_rapl_names (entries : List (String × String)) : List String :=
  renameLoop ((entries.filter (fun e => strContains e.1 ":")).map Prod.snd) 0

/-- Modelled from the spec: `codecarbon.core.rapl.RAPLFile` is not under
`src/`; per the spec it carries a domain name and, after a start/stop
cycle, a derived `power_measurement`. -/
structure RAPLFileM where
  name : String
  power_measurement : ℚ
deriving DecidableEq, Repr

/-- Model of `IntelRAPL.get_cpu_details`: after the shared start/sleep/stop cycle,
the result maps each RAPL file's name to its power measurement. -/
def get_cpu_details (rapl_files : List RAPLFileM) : List (String × ℚ) :=
  rapl_files.map (fun f => (f.name, f.power_measurement))

end IntelRAPL

/-- A row of the reference CPU power dataset (columns `Name` and `TDP`). -/
structure CpuRow where
  name : String
  tdp : Int
deriving DecidableEq, Repr

namespace TDP

/-- Model of `TDP._get_direct_matches`: case-insensitive whole-string similarity of
the detected model against every reference name, for a similarity function
`rf` standing for the external `fuzz.ratio`. -/
def get_direct_matches (rf : String → String → Nat) (moodel : String)
    (cpu_df : List CpuRow) : List Nat :=
  let model_l := pyLower moodel
  cpu_df.map (fun cpu => rf model_l (pyLower cpu.name))

/-- Model of `TDP._get_token_set_matches`: token-set similarity of the detected model
against every reference name, for a similarity function `tf` standing for
the external `fuzz.token_set_ratio`. -/
def get_token_set_matches (tf : String → String → Nat) (model : String)
    (cpu_df : List CpuRow) : List Nat :=
  cpu_df.map (fun cpu => tf model cpu.name)

/-- Model of `TDP._get_single_direct_match`: `ratios.index(max_ratio)` followed by
`cpu_df["Name"].iloc[idx]`; `none` models the exceptions of either step. -/
def get_single_direct_match (ratios : List Nat) (max_ratio : Nat)
    (cpu_df : List CpuRow) : Option String :=
  match indexOfFirst max_ratio ratios with
  | none => none
  | some idx => (cpu_df.get? idx).map (·.name)

/-- Model of `TDP._get_max_idxs`: all indices attaining the maximum ratio. -/
def get_max_idxs (ratios : List Nat) (max_ratio : Nat) : List Nat :=
  (ratios.enum.filter (fun p => p.2 = max_ratio)).map Prod.fst

/-- Model of `TDP._get_cpus`: `[cpu_df["Name"][idx] for idx in cpu_idxs]`; `none`
models the lookup error on an invalid index. -/
def get_cpus (cpu_df : List CpuRow) : List Nat → Option (List String)
  | [] => some []
  | i :: rest =>
    match cpu_df.get? i with
    | none => none
    | some r => (get_cpus cpu_df rest).map (r.name :: ·)

/-- Model of `TDP._get_matching_cpu`: the two-stage matching procedure.  Thresholds
`THRESHOLD_DIRECT` and `THRESHOLD_TOKEN_SET` are both 100.  `Except.error`
models an escaped Python exception, `Except.ok none` a `None` result. -/
def get_matching_cpu (rf tf : String → String → Nat) (model_raw : String)
    (cpu_df : List CpuRow) (greedy : Bool) : Except Unit (Option String) :=
  let ratios_direct := get_direct_matches rf model_raw cpu_df
  let ratios_token_set := get_token_set_matches tf model_raw cpu_df
  match listMax ratios_direct with
  | none => .error ()
  | some max_ratio_direct =>
    match listMax ratios_token_set with
    | none => .error ()
    | some max_ratio_token_set =>
      if 100 ≤ max_ratio_direct then
        match get_single_direct_match ratios_direct max_ratio_direct cpu_df with
        | none => .error ()
        | some cpu_matched => .ok (some cpu_matched)
      else if max_ratio_token_set < 100 then
        .ok none
      else
        let cpu_idxs := get_max_idxs ratios_token_set max_ratio_token_set
        match get_cpus cpu_df cpu_idxs with
        | none => .error ()
        | some cpu_machings =>
          if (cpu_machings ≠ [] ∧ cpu_machings.length = 1) ∨ greedy = true then
            match cpu_machings.head? with
            | none => .error ()
            | some cpu_matched => .ok (some cpu_matched)
          else
            .ok none

/-- Model of `TDP._get_cpu_constant_power`:
`cpu_power_df[cpu_power_df["Name"] == match]["TDP"].values[0]`; `none`
models the `IndexError` when no row matches. -/
def get_cpu_constant_power (mtch : String) (cpu_power_df : List CpuRow) :
    Option Int :=
  ((cpu_power_df.filter (fun r => r.name == mtch)).head?).map (·.tdp)

/-- Model of `TDP._get_cpu_power_from_registry`: match (with the default
`greedy=False`), then look the match up; the Python truthiness test
`if cpu_matching:` treats both `None` and the empty string as false. -/
def get_cpu_power_from_registry (rf tf : String → String → Nat)
    (cpu_model_raw : String) (cpu_df : List CpuRow) :
    Except Unit (Option Int) :=
  match get_matching_cpu rf tf cpu_model_raw cpu_df false with
  | .error e => .error e
  | .ok none => .ok none
  | .ok (some cpu_matching) =>
    if cpu_matching = "" then .ok none
    else
      match get_cpu_constant_power cpu_matching cpu_df with
      | none => .error ()
      | some power => .ok (some power)

/-- Model of `TDP._main`: detection result (the external `cpuinfo` outcome, `none`
or a possibly empty brand string) is tested for truthiness, the registry
is consulted, and a falsy power (`None` or `0`) yields an absent TDP. -/
def main (rf tf : String → String → Nat) (cpu_model_detected : Option String)
    (cpu_df : List CpuRow) : Except Unit (String × Option Int) :=
  match cpu_model_detected with
  | none => .ok ("Unknown", none)
  | some model =>
    if model = "" then .ok ("Unknown", none)
    else
      match get_cpu_power_from_registry rf tf model cpu_df with
      | .error e => .error e
      | .ok power =>
        match power with
        | some p => if p ≠ 0 then .ok (model, some p) else .ok (model, none)
        | none => .ok (model, none)

end TDP

/-! ### Helper lemmas about the Python primitives -/

theorem listMax_eq_none {l : List Nat} : listMax l = none ↔ l = [] := by
  cases l with
  | nil => simp [listMax]
  | cons a t =>
    simp only [listMax]
    cases listMax t <;> simp

theorem listMax_le {l : List Nat} {m : Nat} (h : listMax l = some m) :
    ∀ x ∈ l, x ≤ m := by
  induction l generalizing m with
  | nil => simp [listMax] at h
  | cons a t ih =>
    intro x hx
    rw [List.mem_cons] at hx
    simp only [listMax] at h
    cases ht : listMax t with
    | none =>
      rw [ht] at h
      simp only [Option.some.injEq] at h
      have ht' : t = [] := listMax_eq_none.1 ht
      subst ht'
      rcases hx with rfl | hx
      · omega
      · simp at hx
    | some mt =>
      rw [ht] at h
      simp only [Option.some.injEq] at h
      rcases hx with rfl | hx
      · calc x ≤ max x mt := Nat.le_max_left x mt
          _ = m := h
      · calc x ≤ mt := ih ht x hx
          _ ≤ max a mt := Nat.le_max_right a mt
          _ = m := h

theorem listMax_mem {l : List Nat} {m : Nat} (h : listMax l = some m) :
    m ∈ l := by
  induction l generalizing m with
  | nil => simp [listMax] at h
  | cons a t ih =>
    simp only [listMax] at h
    cases ht : listMax t with
    | none => rw [ht] at h; simp only [Option.some.injEq] at h; simp [← h]
    | some mt =>
      rw [ht] at h
      simp only [Option.some.injEq] at h
      rw [Nat.max_def] at h
      by_cases hc : a ≤ mt
      · rw [if_pos hc] at h
        exact List.mem_cons_of_mem a (h ▸ ih ht)
      · rw [if_neg hc] at h
        exact h ▸ List.mem_cons_self a t

theorem listMax_isSome {l : List Nat} (h : l ≠ []) :
    ∃ m, listMax l = some m := by
  cases l with
  | nil => exact absurd rfl h
  | cons a t => simp only [listMax]; cases listMax t <;> exact ⟨_, rfl⟩

theorem listMax_of_bounds {l : List Nat} (hmem : 100 ∈ l)
    (hub : ∀ x ∈ l, x ≤ 100) : listMax l = some 100 := by
  obtain ⟨m, hm⟩ := listMax_isSome (List.ne_nil_of_mem hmem)
  have h1 : m ≤ 100 := hub m (listMax_mem hm)
  have h2 : 100 ≤ m := listMax_le hm 100 hmem
  have : m = 100 := by omega
  rwa [this] at hm

theorem indexOfFirst_spec {v : Nat} {l : List Nat} {k : Nat}
    (h : indexOfFirst v l = some k) :
    l.get? k = some v ∧ ∀ j, j < k → l.get? j ≠ some v := by
  induction l generalizing k with
  | nil => simp [indexOfFirst] at h
  | cons a t ih =>
    by_cases ha : a = v
    · have h0 : k = 0 := by simp [indexOfFirst, ha] at h; omega
      subst h0
      exact ⟨by simp [ha], by omega⟩
    · rw [indexOfFirst, if_neg ha] at h
      cases hk' : indexOfFirst v t with
      | none => rw [hk'] at h; simp at h
      | some k' =>
        rw [hk'] at h
        simp only [Option.map_some', Option.some.injEq] at h
        subst h
        obtain ⟨hg, hmin⟩ := ih hk'
        refine ⟨by simpa using hg, ?_⟩
        intro j hj
        cases j with
        | zero => simpa using ha
        | succ j' => simpa using hmin j' (by omega)

theorem indexOfFirst_of_mem {v : Nat} {l : List Nat} (h : v ∈ l) :
    ∃ k, indexOfFirst v l = some k := by
  induction l with
  | nil => simp at h
  | cons a t ih =>
    by_cases ha : a = v
    · exact ⟨0, by simp [indexOfFirst, ha]⟩
    · rcases List.mem_cons.1 h with h' | h'
      · exact absurd h'.symm ha
      · obtain ⟨k, hk⟩ := ih h'
        exact ⟨k + 1, by simp [indexOfFirst, ha, hk]⟩

/-! ### Helper lemmas about the matching pipeline -/

theorem get_direct_matches_length (rf : String → String → Nat) (m : String)
    (df : List CpuRow) : (TDP.get_direct_matches rf m df).length = df.length := by
  simp [TDP.get_direct_matches]

theorem get_token_set_matches_length (tf : String → String → Nat) (m : String)
    (df : List CpuRow) :
    (TDP.get_token_set_matches tf m df).length = df.length := by
  simp [TDP.get_token_set_matches]

theorem get_max_idxs_get? {ratios : List Nat} {t i : Nat}
    (h : i ∈ TDP.get_max_idxs ratios t) : ratios.get? i = some t := by
  simp only [TDP.get_max_idxs, List.mem_map] at h
  obtain ⟨p, hp, rfl⟩ := h
  have hm := List.mem_filter.1 hp
  have hv : p.2 = t := by simpa using hm.2
  have := List.mem_enum_iff_getElem?.1 hm.1
  rw [List.get?_eq_getElem?, this, hv]

theorem get_cpus_isSome {df : List CpuRow} {idxs : List Nat}
    (h : ∀ j ∈ idxs, j < df.length) :
    ∃ l, TDP.get_cpus df idxs = some l ∧ l.length = idxs.length := by
  induction idxs with
  | nil => exact ⟨[], rfl, rfl⟩
  | cons j rest ih =>
    obtain ⟨l, hl, hlen⟩ := ih (fun j' hj' => h j' (List.mem_cons_of_mem _ hj'))
    have hj : j < df.length := h j (List.mem_cons_self _ _)
    have hr : df.get? j = some (df.get ⟨j, hj⟩) := List.get?_eq_get hj
    refine ⟨(df.get ⟨j, hj⟩).name :: l, ?_, by simp [hlen]⟩
    simp only [TDP.get_cpus, hr, hl]
    rfl

theorem get_cpus_mem {df : List CpuRow} {idxs : List Nat} {l : List String}
    (h : TDP.get_cpus df idxs = some l) :
    ∀ n ∈ l, ∃ r, r ∈ df ∧ r.name = n := by
  induction idxs generalizing l with
  | nil =>
    simp only [TDP.get_cpus, Option.some.injEq] at h
    subst h; simp
  | cons j rest ih =>
    simp only [TDP.get_cpus] at h
    cases hg : df.get? j with
    | none => rw [hg] at h; simp at h
    | some r =>
      rw [hg] at h
      cases hrest : TDP.get_cpus df rest with
      | none => rw [hrest] at h; simp at h
      | some l' =>
        rw [hrest] at h
        simp only [Option.map_some', Option.some.injEq] at h
        subst h
        intro n hn
        rcases List.mem_cons.1 hn with rfl | hn'
        · exact ⟨r, List.get?_mem hg, rfl⟩
        · exact ih hrest n hn'

theorem get_cpus_cons {df : List CpuRow} {j : Nat} {rest : List Nat}
    {l : List String} (h : TDP.get_cpus df (j :: rest) = some l) :
    ∃ r l', df.get? j = some r ∧ TDP.get_cpus df rest = some l' ∧
      l = r.name :: l' := by
  simp only [TDP.get_cpus] at h
  cases hg : df.get? j with
  | none => rw [hg] at h; simp at h
  | some r =>
    rw [hg] at h
    cases hrest : TDP.get_cpus df rest with
    | none => rw [hrest] at h; simp at h
    | some l' =>
      rw [hrest] at h
      simp only [Option.map_some', Option.some.injEq] at h
      exact ⟨r, l', rfl, rfl, h.symm⟩

/-! ### Helper lemmas about the Power Gadget aggregation -/

/-- The aggregate that `IntelPowerGadget.get_cpu_details` assigns to column
`p.1` named `p.2` (`none` when the column is excluded): last value for a
cumulative column, mean otherwise. -/
def colAgg (data : List (List ℚ)) (p : Nat × String) : Option (String × ℚ) :=
  if p.2 ∈ IntelPowerGadget.excludedCols then none
  else some (p.2,
    if strContains p.2 "Cumulative" then
      ((IntelPowerGadget.colVals data p.1).getLast?).getD 0
    else IntelPowerGadget.qMean (IntelPowerGadget.colVals data p.1))

theorem colVals_ne_nil {data : List (List ℚ)} (h : data ≠ []) (j : Nat) :
    IntelPowerGadget.colVals data j ≠ [] := by
  simpa [IntelPowerGadget.colVals] using h

theorem aggLoop_eq {data : List (List ℚ)} (hne : data ≠ []) :
    ∀ (cols : List (Nat × String)) (acc : List (String × ℚ)),
      IntelPowerGadget.aggLoop data cols acc
        = acc ++ cols.filterMap (colAgg data) := by
  intro cols
  induction cols with
  | nil => intro acc; simp [IntelPowerGadget.aggLoop]
  | cons p rest ih =>
    intro acc
    obtain ⟨j, nm⟩ := p
    by_cases hx : nm ∈ IntelPowerGadget.excludedCols
    · simp only [IntelPowerGadget.aggLoop, if_pos hx, ih, List.filterMap_cons,
        colAgg, reduceIte]
    · by_cases hc : strContains nm "Cumulative"
      · obtain ⟨v, hv⟩ := Option.isSome_iff_exists.1
          (List.getLast?_isSome.2 (colVals_ne_nil hne j))
        simp only [IntelPowerGadget.aggLoop, if_neg hx, hc, if_pos rfl, hv,
          ih, List.filterMap_cons, colAgg, List.append_assoc,
          List.singleton_append, Option.getD_some, reduceIte]
      · simp only [IntelPowerGadget.aggLoop, if_neg hx, hc, ih,
          List.filterMap_cons, colAgg, List.append_assoc,
          List.singleton_append, reduceIte, Bool.false_eq_true]

theorem aggregate_eq {header : List String} {rows : List (List (Option ℚ))}
    (hne : IntelPowerGadget.dropna rows ≠ []) :
    IntelPowerGadget.aggregate header rows
      = header.enum.filterMap (colAgg (IntelPowerGadget.dropna rows)) := by
  unfold IntelPowerGadget.aggregate
  rw [aggLoop_eq hne]
  simp

theorem filterMap_colAgg_keys (data : List (List ℚ)) :
    ∀ (l : List String) (k : Nat),
      ((List.enumFrom k l).filterMap (colAgg data)).map Prod.fst
        = l.filter (fun n => !(IntelPowerGadget.excludedCols.contains n)) := by
  intro l
  induction l with
  | nil => intro k; rfl
  | cons x xs ih =>
    intro k
    by_cases hx : x ∈ IntelPowerGadget.excludedCols
    · have hcx : IntelPowerGadget.excludedCols.contains x = true := by
        simpa using hx
      simp [List.enumFrom, List.filterMap_cons, colAgg, if_pos hx,
        List.filter_cons, hcx, ih]
    · have hcx : IntelPowerGadget.excludedCols.contains x = false := by
        simpa using hx
      simp [List.enumFrom, List.filterMap_cons, colAgg, if_neg hx,
        List.filter_cons, hcx, ih]

theorem filterMap_colAgg_lookup (data : List (List ℚ)) :
    ∀ (l : List String) (k j : Nat) (name : String), l.Nodup →
      l.get? j = some name → name ∉ IntelPowerGadget.excludedCols →
      ((List.enumFrom k l).filterMap (colAgg data)).lookup name
        = some (if strContains name "Cumulative" then
            ((IntelPowerGadget.colVals data (k + j)).getLast?).getD 0
          else IntelPowerGadget.qMean
            (IntelPowerGadget.colVals data (k + j))) := by
  intro l
  induction l with
  | nil => intro k j name _ hj; cases hj
  | cons x xs ih =>
    intro k j name hnd hj hnx
    cases j with
    | zero =>
      have hx : x = name := by simpa using hj
      subst hx
      simp only [List.enumFrom, List.filterMap_cons, colAgg, if_neg hnx,
        List.lookup, beq_self_eq_true, Nat.add_zero]
    | succ j' =>
      have hxs : xs.get? j' = some name := by simpa using hj
      have hmem : name ∈ xs := List.get?_mem hxs
      have hxne : (name == x) = false := by
        have : x ∉ xs := (List.nodup_cons.1 hnd).1
        have hne : name ≠ x := fun he => this (he ▸ hmem)
        simpa using hne
      have harith : k + 1 + j' = k + (j' + 1) := by omega
      by_cases hx : x ∈ IntelPowerGadget.excludedCols
      · simp only [List.enumFrom, List.filterMap_cons, colAgg, if_pos hx]
        rw [ih (k + 1) j' name (List.nodup_cons.1 hnd).2 hxs hnx, harith]
      · simp only [List.enumFrom, List.filterMap_cons, colAgg, if_neg hx,
          List.lookup, hxne]
        rw [ih (k + 1) j' name (List.nodup_cons.1 hnd).2 hxs hnx, harith]

theorem get_matching_cpu_direct {rf tf : String → String → Nat} {m : String}
    {df : List CpuRow} {g : Bool} {d : Nat}
    (hd : listMax (TDP.get_direct_matches rf m df) = some d) (hge : 100 ≤ d) :
    ∃ k r, indexOfFirst d (TDP.get_direct_matches rf m df) = some k ∧
      df.get? k = some r ∧
      TDP.get_matching_cpu rf tf m df g = .ok (some r.name) := by
  have hmem : d ∈ TDP.get_direct_matches rf m df := listMax_mem hd
  obtain ⟨k, hk⟩ := indexOfFirst_of_mem hmem
  obtain ⟨hgk, _⟩ := indexOfFirst_spec hk
  have hklt : k < (TDP.get_direct_matches rf m df).length := by
    by_contra hh
    push_neg at hh
    rw [List.get?_eq_none.2 hh] at hgk
    cases hgk
  have hklt' : k < df.length := by
    rwa [get_direct_matches_length] at hklt
  have hdfk : df.get? k = some (df.get ⟨k, hklt'⟩) := List.get?_eq_get hklt'
  refine ⟨k, df.get ⟨k, hklt'⟩, hk, hdfk, ?_⟩
  have hdf : df ≠ [] := by
    intro h0
    subst h0
    simp [TDP.get_direct_matches, listMax] at hd
  obtain ⟨t, ht⟩ := listMax_isSome
    (l := TDP.get_token_set_matches tf m df)
    (by simpa [TDP.get_token_set_matches] using hdf)
  simp only [TDP.get_matching_cpu, hd, ht, if_pos hge,
    TDP.get_single_direct_match, hk, hdfk, Option.map_some']

theorem get_matching_cpu_token_below {rf tf : String → String → Nat}
    {m : String} {df : List CpuRow} {g : Bool} {d t : Nat}
    (hd : listMax (TDP.get_direct_matches rf m df) = some d) (hdlt : d < 100)
    (ht : listMax (TDP.get_token_set_matches tf m df) = some t)
    (htlt : t < 100) :
    TDP.get_matching_cpu rf tf m df g = .ok none := by
  simp only [TDP.get_matching_cpu, hd, ht, if_neg (by omega : ¬ 100 ≤ d),
    if_pos htlt]

theorem get_matching_cpu_token_at {rf tf : String → String → Nat}
    {m : String} {df : List CpuRow} {g : Bool} {d t : Nat}
    (hd : listMax (TDP.get_direct_matches rf m df) = some d) (hdlt : d < 100)
    (ht : listMax (TDP.get_token_set_matches tf m df) = some t)
    (hge : 100 ≤ t) :
    ∃ l, TDP.get_cpus df
        (TDP.get_max_idxs (TDP.get_token_set_matches tf m df) t) = some l ∧
      l.length =
        (TDP.get_max_idxs (TDP.get_token_set_matches tf m df) t).length ∧
      TDP.get_matching_cpu rf tf m df g =
        (if (l ≠ [] ∧ l.length = 1) ∨ g = true then
          match l.head? with
          | none => .error ()
          | some n => .ok (some n)
        else .ok none) := by
  obtain ⟨l, hl, hlen⟩ := @get_cpus_isSome df
    (TDP.get_max_idxs (TDP.get_token_set_matches tf m df) t)
    (by
      intro j hj
      have hg := get_max_idxs_get? hj
      have : j < (TDP.get_token_set_matches tf m df).length := by
        by_contra hh
        push_neg at hh
        rw [List.get?_eq_none.2 hh] at hg
        cases hg
      rwa [get_token_set_matches_length] at this)
  refine ⟨l, hl, hlen, ?_⟩
  simp only [TDP.get_matching_cpu, hd, ht, if_neg (by omega : ¬ 100 ≤ d),
    if_neg (by omega : ¬ t < 100), hl]

/-! ### Claim theorems -/

/-- A concrete stand-in for `fuzz.ratio` used by witnesses: 100 on equal
strings, 0 otherwise (it satisfies the reflexivity and boundedness
properties the claims assume of the external ratio). -/
def ratioEqModel : String → String → Nat :=
  fun a b => if a == b then 100 else 0

/-- C1: a detected string equal (case-insensitively) to at least one
reference name makes the direct stage fire: the maximum direct ratio is
exactly the threshold 100, and resolution returns the name of the first
dataset entry attaining it, for every token-set similarity function `tf`
(so the token-set stage never influences the result).  The hypotheses on
`rf` are the relevant properties of `fuzz.ratio`: it is 100 on equal
strings and never exceeds 100. -/
theorem direct_match_priority (rf tf : String → String → Nat) (m : String)
    (df : List CpuRow) (g : Bool)
    (hrefl : ∀ s, rf s s = 100) (hub : ∀ s u, rf s u ≤ 100)
    (row : CpuRow) (hrow : row ∈ df)
    (hname : pyLower row.name = pyLower m) :
    listMax (TDP.get_direct_matches rf m df) = some 100 ∧
    ∃ k r, indexOfFirst 100 (TDP.get_direct_matches rf m df) = some k ∧
      (∀ j, j < k → (TDP.get_direct_matches rf m df).get? j ≠ some 100) ∧
      df.get? k = some r ∧
      TDP.get_matching_cpu rf tf m df g = .ok (some r.name) := by
  have h100 : (100 : Nat) ∈ TDP.get_direct_matches rf m df := by
    simp only [TDP.get_direct_matches, List.mem_map]
    exact ⟨row, hrow, by rw [hname, hrefl]⟩
  have hub' : ∀ x ∈ TDP.get_direct_matches rf m df, x ≤ 100 := by
    simp only [TDP.get_direct_matches, List.mem_map]
    rintro x ⟨c, _, rfl⟩
    exact hub _ _
  have hmax := listMax_of_bounds h100 hub'
  obtain ⟨k, r, hk, hdfk, hres⟩ :=
    @get_matching_cpu_direct rf tf m df g 100 hmax (le_refl 100)
  exact ⟨hmax, k, r, hk, (indexOfFirst_spec hk).2, hdfk, hres⟩

/-- C1 witness: "Intel I7" against a dataset whose second entry is
"intel i7" resolves directly to that entry (index 1), with a token-set
function that rates every pair at the threshold. -/
theorem direct_match_priority_witness :
    (∀ s, ratioEqModel s s = 100) ∧ (∀ s u, ratioEqModel s u ≤ 100) ∧
    (⟨"intel i7", 45⟩ : CpuRow) ∈
      [(⟨"Other CPU", 10⟩ : CpuRow), ⟨"intel i7", 45⟩] ∧
    pyLower (CpuRow.mk "intel i7" 45).name = pyLower "Intel I7" ∧
    (listMax (TDP.get_direct_matches ratioEqModel "Intel I7"
        [⟨"Other CPU", 10⟩, ⟨"intel i7", 45⟩]) = some 100 ∧
      ∃ k r, indexOfFirst 100 (TDP.get_direct_matches ratioEqModel "Intel I7"
          [⟨"Other CPU", 10⟩, ⟨"intel i7", 45⟩]) = some k ∧
        (∀ j, j < k →
          (TDP.get_direct_matches ratioEqModel "Intel I7"
            [⟨"Other CPU", 10⟩, ⟨"intel i7", 45⟩]).get? j ≠ some 100) ∧
        [(⟨"Other CPU", 10⟩ : CpuRow), ⟨"intel i7", 45⟩].get? k = some r ∧
        TDP.get_matching_cpu ratioEqModel (fun _ _ => 100) "Intel I7"
          [⟨"Other CPU", 10⟩, ⟨"intel i7", 45⟩] false = .ok (some r.name)) :=
  ⟨fun s => by simp [ratioEqModel],
   fun s u => by unfold ratioEqModel; split <;> omega,
   by simp,
   rfl,
   direct_match_priority ratioEqModel (fun _ _ => 100) "Intel I7"
     [⟨"Other CPU", 10⟩, ⟨"intel i7", 45⟩] false
     (fun s => by simp [ratioEqModel])
     (fun s u => by unfold ratioEqModel; split <;> omega)
     ⟨"intel i7", 45⟩ (by simp) rfl⟩

/-- C2: when the direct stage does not match (maximum direct ratio below
100), resolution is decided by the token-set stage: a maximum token-set
ratio below 100 yields no match; a unique maximum-ratio entry is selected;
several maximum-ratio entries yield no match in non-greedy mode and the
first one (dataset order) in greedy mode. -/
theorem token_set_stage_resolution (rf tf : String → String → Nat)
    (m : String) (df : List CpuRow) (g : Bool) (d t : Nat)
    (hd : listMax (TDP.get_direct_matches rf m df) = some d) (hdlt : d < 100)
    (ht : listMax (TDP.get_token_set_matches tf m df) = some t) :
    (t < 100 → TDP.get_matching_cpu rf tf m df g = .ok none) ∧
    (100 ≤ t → ∀ i,
      TDP.get_max_idxs (TDP.get_token_set_matches tf m df) t = [i] →
      ∃ r, df.get? i = some r ∧
        TDP.get_matching_cpu rf tf m df g = .ok (some r.name)) ∧
    (100 ≤ t → ∀ i i' rest,
      TDP.get_max_idxs (TDP.get_token_set_matches tf m df) t
        = i :: i' :: rest →
      (g = false → TDP.get_matching_cpu rf tf m df g = .ok none) ∧
      (g = true → ∃ r, df.get? i = some r ∧
        TDP.get_matching_cpu rf tf m df g = .ok (some r.name))) := by
  refine ⟨fun htlt => get_matching_cpu_token_below hd hdlt ht htlt,
    fun hge i hidxs => ?_, fun hge i i' rest hidxs => ?_⟩
  · obtain ⟨l, hl, hlen, hres⟩ := get_matching_cpu_token_at
      (g := g) hd hdlt ht hge
    rw [hidxs] at hl hlen
    obtain ⟨r, l', hr, hl', hcons⟩ := get_cpus_cons hl
    subst hcons
    have hl'nil : l' = [] := by
      have hz : l'.length = 0 := by simpa using hlen
      exact List.length_eq_zero.1 hz
    subst hl'nil
    refine ⟨r, hr, ?_⟩
    rw [hres, if_pos (Or.inl ⟨by simp, by simp⟩)]
    rfl
  · obtain ⟨l, hl, hlen, hres⟩ := get_matching_cpu_token_at
      (g := g) hd hdlt ht hge
    rw [hidxs] at hl hlen
    obtain ⟨r, l', hr, hl', hcons⟩ := get_cpus_cons hl
    subst hcons
    have hlen2 : l'.length = rest.length + 1 := by simpa using hlen
    constructor
    · intro hg
      subst hg
      rw [hres, if_neg ?_]
      rintro (⟨-, hone⟩ | hfalse)
      · simp [hlen2] at hone
      · cases hfalse
    · intro hg
      subst hg
      refine ⟨r, hr, ?_⟩
      rw [hres, if_pos (Or.inr rfl)]
      rfl

/-- C2 witness: with a direct stage that never fires and a token-set
function constantly at the threshold, a two-row dataset with identical
names is an ambiguous tie; in greedy mode the first entry is selected. -/
theorem token_set_stage_resolution_witness :
    listMax (TDP.get_direct_matches (fun _ _ => 0) "A"
      [⟨"A", 10⟩, ⟨"A", 20⟩]) = some 0 ∧ (0 : Nat) < 100 ∧
    listMax (TDP.get_token_set_matches (fun _ _ => 100) "A"
      [⟨"A", 10⟩, ⟨"A", 20⟩]) = some 100 ∧
    ((100 : Nat) < 100 → TDP.get_matching_cpu (fun _ _ => 0) (fun _ _ => 100)
      "A" [⟨"A", 10⟩, ⟨"A", 20⟩] true = .ok none) ∧
    ((100 : Nat) ≤ 100 → ∀ i,
      TDP.get_max_idxs (TDP.get_token_set_matches (fun _ _ => 100) "A"
        [⟨"A", 10⟩, ⟨"A", 20⟩]) 100 = [i] →
      ∃ r, [(⟨"A", 10⟩ : CpuRow), ⟨"A", 20⟩].get? i = some r ∧
        TDP.get_matching_cpu (fun _ _ => 0) (fun _ _ => 100) "A"
          [⟨"A", 10⟩, ⟨"A", 20⟩] true = .ok (some r.name)) ∧
    ((100 : Nat) ≤ 100 → ∀ i i' rest,
      TDP.get_max_idxs (TDP.get_token_set_matches (fun _ _ => 100) "A"
        [⟨"A", 10⟩, ⟨"A", 20⟩]) 100 = i :: i' :: rest →
      (true = false → TDP.get_matching_cpu (fun _ _ => 0) (fun _ _ => 100)
        "A" [⟨"A", 10⟩, ⟨"A", 20⟩] true = .ok none) ∧
      (true = true → ∃ r, [(⟨"A", 10⟩ : CpuRow), ⟨"A", 20⟩].get? i = some r ∧
        TDP.get_matching_cpu (fun _ _ => 0) (fun _ _ => 100) "A"
          [⟨"A", 10⟩, ⟨"A", 20⟩] true = .ok (some r.name))) :=
  ⟨rfl, by omega, rfl,
    (token_set_stage_resolution (fun _ _ => 0) (fun _ _ => 100) "A"
      [⟨"A", 10⟩, ⟨"A", 20⟩] true 0 100 rfl (by omega) rfl).1,
    (token_set_stage_resolution (fun _ _ => 0) (fun _ _ => 100) "A"
      [⟨"A", 10⟩, ⟨"A", 20⟩] true 0 100 rfl (by omega) rfl).2.1,
    (token_set_stage_resolution (fun _ _ => 0) (fun _ _ => 100) "A"
      [⟨"A", 10⟩, ⟨"A", 20⟩] true 0 100 rfl (by omega) rfl).2.2⟩

/-- C3: for a parsed log whose rows, after dropping those with missing
values, are nonempty (and whose column names are distinct, as pandas
guarantees), the aggregation maps exactly the non-excluded column names,
in order, and each such name to the column's last value when the name is
cumulative and the column's arithmetic mean otherwise. -/
theorem powergadget_aggregation (header : List String)
    (rows : List (List (Option ℚ)))
    (hne : IntelPowerGadget.dropna rows ≠ []) (hnodup : header.Nodup) :
    (IntelPowerGadget.aggregate header rows).map Prod.fst
      = header.filter (fun n => !(IntelPowerGadget.excludedCols.contains n)) ∧
    ∀ j name, header.get? j = some name →
      name ∉ IntelPowerGadget.excludedCols →
      ∃ v, (IntelPowerGadget.colVals
          (IntelPowerGadget.dropna rows) j).getLast? = some v ∧
        (IntelPowerGadget.aggregate header rows).lookup name
          = some (if strContains name "Cumulative" then v
              else IntelPowerGadget.qMean
                (IntelPowerGadget.colVals (IntelPowerGadget.dropna rows) j)) := by
  constructor
  · rw [aggregate_eq hne]
    exact filterMap_colAgg_keys (IntelPowerGadget.dropna rows) header 0
  · intro j name hj hnx
    obtain ⟨v, hv⟩ := Option.isSome_iff_exists.1
      (List.getLast?_isSome.2 (colVals_ne_nil hne j))
    refine ⟨v, hv, ?_⟩
    rw [aggregate_eq hne]
    have := filterMap_colAgg_lookup (IntelPowerGadget.dropna rows) header 0 j
      name hnodup hj hnx
    have henum : header.enum = List.enumFrom 0 header := rfl
    rw [henum, this, Nat.zero_add, hv, Option.getD_some]

/-- C3 witness: the spec's example — a cumulative column [1,2,5] and a
non-cumulative column [10,20,30] aggregate to 5 and 20 respectively. -/
theorem powergadget_aggregation_witness :
    IntelPowerGadget.dropna
      [[some 1, some 10], [some 2, some 20], [some 5, some 30]] ≠ [] ∧
    (["Cumulative X", "Y"] : List String).Nodup ∧
    (IntelPowerGadget.aggregate ["Cumulative X", "Y"]
        [[some 1, some 10], [some 2, some 20], [some 5, some 30]]).lookup
      "Cumulative X" = some 5 ∧
    (IntelPowerGadget.aggregate ["Cumulative X", "Y"]
        [[some 1, some 10], [some 2, some 20], [some 5, some 30]]).lookup
      "Y" = some 20 := by
  have h := powergadget_aggregation ["Cumulative X", "Y"]
    [[some 1, some 10], [some 2, some 20], [some 5, some 30]]
    (by decide) (by decide)
  obtain ⟨v1, hv1, hl1⟩ := h.2 0 "Cumulative X" rfl (by decide)
  obtain ⟨v2, hv2, hl2⟩ := h.2 1 "Y" rfl (by decide)
  refine ⟨by decide, by decide, ?_, ?_⟩
  · rw [hl1]
    have hc : (IntelPowerGadget.colVals (IntelPowerGadget.dropna
        [[some 1, some 10], [some 2, some 20], [some 5, some 30]])
        0).getLast? = some 5 := by
      simp [IntelPowerGadget.colVals, IntelPowerGadget.dropna,
        IntelPowerGadget.dropRow]
    rw [hc] at hv1
    have hv : v1 = 5 := (Option.some.inj hv1).symm
    have hs : strContains "Cumulative X" "Cumulative" = true := by decide
    rw [hs, if_pos rfl, hv]
  · rw [hl2]
    have hmean : IntelPowerGadget.qMean (IntelPowerGadget.colVals
        (IntelPowerGadget.dropna
          [[some 1, some 10], [some 2, some 20], [some 5, some 30]]) 1)
        = 20 := by
      simp [IntelPowerGadget.qMean, IntelPowerGadget.colVals,
        IntelPowerGadget.dropna, IntelPowerGadget.dropRow]
      norm_num
    have hs : strContains "Y" "Cumulative" = false := by decide
    rw [hs, hmean]
    simp

/-! ### Helper lemmas about the RAPL renaming loop -/

theorem renameLoop_length (l : List String) (i : Nat) :
    (IntelRAPL.renameLoop l i).length = l.length := by
  induction l generalizing i with
  | nil => rfl
  | cons x xs ih =>
    by_cases hx : strContains (pyStrip x) "package"
    · simp [IntelRAPL.renameLoop, hx, ih]
    · simp [IntelRAPL.renameLoop, hx, ih]

theorem renameLoop_get? (l : List String) :
    ∀ (i k : Nat) (nm : String), l.get? k = some nm →
      (IntelRAPL.renameLoop l i).get? k
        = some (if strContains (pyStrip nm) "package"
            then "Processor Power_" ++ toString
              (i + (l.take k).countP
                (fun s => strContains (pyStrip s) "package")) ++ "(Watt)"
            else pyStrip nm) := by
  induction l with
  | nil => intro i k nm hk; cases hk
  | cons x xs ih =>
    intro i k nm hk
    cases k with
    | zero =>
      have hx : x = nm := by simpa using hk
      subst hx
      by_cases hp : strContains (pyStrip x) "package"
      · simp [IntelRAPL.renameLoop, hp]
      · simp [IntelRAPL.renameLoop, hp]
    | succ k' =>
      have hxs : xs.get? k' = some nm := by simpa using hk
      by_cases hp : strContains (pyStrip x) "package"
      · have : (IntelRAPL.renameLoop (x :: xs) i).get? (k' + 1)
            = (IntelRAPL.renameLoop xs (i + 1)).get? k' := by
          simp [IntelRAPL.renameLoop, hp]
        rw [this, ih (i + 1) k' nm hxs]
        have hcount : ((x :: xs).take (k' + 1)).countP
            (fun s => strContains (pyStrip s) "package")
            = (xs.take k').countP
              (fun s => strContains (pyStrip s) "package") + 1 := by
          simp [List.take_succ_cons, List.countP_cons, hp]
        rw [hcount]
        have harith : i + 1 + (xs.take k').countP
            (fun s => strContains (pyStrip s) "package")
            = i + ((xs.take k').countP
              (fun s => strContains (pyStrip s) "package") + 1) := by omega
        rw [harith]
      · have : (IntelRAPL.renameLoop (x :: xs) i).get? (k' + 1)
            = (IntelRAPL.renameLoop xs i).get? k' := by
          simp [IntelRAPL.renameLoop, hp]
        rw [this, ih i k' nm hxs]
        have hcount : ((x :: xs).take (k' + 1)).countP
            (fun s => strContains (pyStrip s) "package")
            = (xs.take k').countP
              (fun s => strContains (pyStrip s) "package") := by
          simp [List.take_succ_cons, List.countP_cons, hp]
        rw [hcount]

/-- C4: only directory entries whose identifier contains the `:` delimiter
are kept (the output has one name per kept entry, in order); the `k`-th
kept domain is renamed to the canonical `Processor Power_<i>(Watt)` label
when its declared name contains "package" — with `i` counting the
package domains among the earlier kept entries — and keeps its (stripped)
declared name otherwise; the power mapping of `get_cpu_details` has
exactly the domain names as keys, in order; and the spec's scenario
(domains "package-0", "package-1", "dram") produces exactly the keys
"Processor Power_0(Watt)", "Processor Power_1(Watt)", "dram". -/
theorem rapl_domain_naming (entries : List (String × String))
    (files : List IntelRAPL.RAPLFileM) :
    (IntelRAPL.fetch_rapl_names entries).length
      = (entries.filter (fun e => strContains e.1 ":")).length ∧
    (∀ k e, (entries.filter (fun e => strContains e.1 ":")).get? k = some e →
      (IntelRAPL.fetch_rapl_names entries).get? k
        = some (if strContains (pyStrip e.2) "package"
            then "Processor Power_" ++ toString
              (((entries.filter (fun e' => strContains e'.1 ":")).take
                k).countP (fun e' => strContains (pyStrip e'.2) "package"))
              ++ "(Watt)"
            else pyStrip e.2)) ∧
    (IntelRAPL.get_cpu_details files).map Prod.fst
      = files.map IntelRAPL.RAPLFileM.name ∧
    IntelRAPL.fetch_rapl_names
      [("intel-rapl:0", "package-0"), ("intel-rapl:1", "package-1"),
       ("intel-rapl:2", "dram")]
      = ["Processor Power_0(Watt)", "Processor Power_1(Watt)", "dram"] := by
  refine ⟨?_, ?_, ?_, by rfl⟩
  · unfold IntelRAPL.fetch_rapl_names
    rw [renameLoop_length]
    simp
  · intro k e hk
    unfold IntelRAPL.fetch_rapl_names
    have hmap : ((entries.filter
        (fun e => strContains e.1 ":")).map Prod.snd).get? k = some e.2 := by
      rw [List.get?_map, hk, Option.map_some']
    rw [renameLoop_get? _ 0 k e.2 hmap, Nat.zero_add]
    have hcnt : (((entries.filter (fun e => strContains e.1 ":")).map
          Prod.snd).take k).countP (fun s => strContains (pyStrip s) "package")
        = ((entries.filter (fun e' => strContains e'.1 ":")).take k).countP
          (fun e' => strContains (pyStrip e'.2) "package") := by
      rw [← List.map_take, List.countP_map]
      rfl
    rw [hcnt]
  · simp [IntelRAPL.get_cpu_details]

/-- C4 witness: the spec's end-to-end scenario evaluated concretely. -/
theorem rapl_domain_naming_witness :
    IntelRAPL.fetch_rapl_names
      [("intel-rapl:0", "package-0"), ("intel-rapl:1", "package-1"),
       ("intel-rapl:2", "dram")]
      = ["Processor Power_0(Watt)", "Processor Power_1(Watt)", "dram"] :=
  (rapl_domain_naming [] []).2.2.2

/-- C8: the registry lookup (the only path from the resolver's public
entry to the matcher) invokes matching with greedy mode off, so an
ambiguous token-set tie — several entries attaining the maximum ratio —
always yields an absent TDP through the public interface. -/
theorem registry_nongreedy (rf tf : String → String → Nat) (m : String)
    (df : List CpuRow) (d t i i' : Nat) (rest : List Nat)
    (hd : listMax (TDP.get_direct_matches rf m df) = some d) (hdlt : d < 100)
    (ht : listMax (TDP.get_token_set_matches tf m df) = some t)
    (hge : 100 ≤ t)
    (hidxs : TDP.get_max_idxs (TDP.get_token_set_matches tf m df) t
      = i :: i' :: rest)
    (hm : m ≠ "") :
    TDP.get_cpu_power_from_registry rf tf m df = .ok none ∧
    TDP.main rf tf (some m) df = .ok (m, none) := by
  have hmatch : TDP.get_matching_cpu rf tf m df false = .ok none := by
    obtain ⟨l, hl, hlen, hres⟩ := get_matching_cpu_token_at
      (g := false) hd hdlt ht hge
    rw [hidxs] at hl hlen
    obtain ⟨r, l', hr, hl', hcons⟩ := get_cpus_cons hl
    subst hcons
    have hlen2 : l'.length = rest.length + 1 := by simpa using hlen
    rw [hres, if_neg ?_]
    rintro (⟨-, hone⟩ | hfalse)
    · simp [hlen2] at hone
    · cases hfalse
  have hreg : TDP.get_cpu_power_from_registry rf tf m df = .ok none := by
    simp only [TDP.get_cpu_power_from_registry, hmatch]
  refine ⟨hreg, ?_⟩
  simp only [TDP.main, if_neg hm, hreg]

/-- C8 witness: the ambiguous two-row dataset from the C2 scenario, seen
through the public registry path, yields an absent TDP. -/
theorem registry_nongreedy_witness :
    TDP.get_cpu_power_from_registry (fun _ _ => 0) (fun _ _ => 100) "A"
      [⟨"A", 10⟩, ⟨"A", 20⟩] = .ok none ∧
    TDP.main (fun _ _ => 0) (fun _ _ => 100) (some "A")
      [⟨"A", 10⟩, ⟨"A", 20⟩] = .ok ("A", none) :=
  registry_nongreedy (fun _ _ => 0) (fun _ _ => 100) "A"
    [⟨"A", 10⟩, ⟨"A", 20⟩] 0 100 0 1 [] rfl (by omega) rfl (by omega) rfl
    (by decide)

/-- C9: a matched entry whose TDP value is 0 is reported exactly like an
unknown model — the pipeline returns the detected model string with an
absent TDP — and, conversely, whenever the pipeline reports a present TDP
it is nonzero. -/
theorem zero_tdp_reported_unknown (rf tf : String → String → Nat)
    (m : String) (df : List CpuRow) (hm : m ≠ "")
    (hreg : TDP.get_cpu_power_from_registry rf tf m df = .ok (some 0)) :
    TDP.main rf tf (some m) df = .ok (m, none) ∧
    ∀ det nm p, TDP.main rf tf det df = .ok (nm, some p) → p ≠ 0 := by
  constructor
  · simp [TDP.main, if_neg hm, hreg]
  · intro det nm p h
    cases det with
    | none => simp [TDP.main] at h
    | some model =>
      by_cases hmod : model = ""
      · simp [TDP.main, hmod] at h
      · simp only [TDP.main, if_neg hmod] at h
        cases hr : TDP.get_cpu_power_from_registry rf tf model df with
        | error e => simp [hr] at h
        | ok power =>
          cases power with
          | none => simp [hr] at h
          | some p' =>
            by_cases hp : p' = 0
            · simp [hr, hp] at h
            · simp [hr, if_pos hp] at h
              intro hp0
              exact hp (h.2.trans hp0)

/-- C9 witness: a dataset entry "x" with TDP 0 is matched but reported
with an absent TDP. -/
theorem zero_tdp_reported_unknown_witness :
    ("x" : String) ≠ "" ∧
    TDP.get_cpu_power_from_registry ratioEqModel (fun _ _ => 0) "x"
      [⟨"x", 0⟩] = .ok (some 0) ∧
    (TDP.main ratioEqModel (fun _ _ => 0) (some "x") [⟨"x", 0⟩]
        = .ok ("x", none) ∧
      ∀ det nm p, TDP.main ratioEqModel (fun _ _ => 0) det [⟨"x", 0⟩]
        = .ok (nm, some p) → p ≠ 0) :=
  ⟨by decide, rfl,
    zero_tdp_reported_unknown ratioEqModel (fun _ _ => 0) "x" [⟨"x", 0⟩]
      (by decide) rfl⟩

/-- The helper `TDP._get_single_direct_match` only returns names drawn from the
dataset. -/
theorem get_single_direct_match_inv {ratios : List Nat} {mr : Nat}
    {df : List CpuRow} {n : String}
    (h : TDP.get_single_direct_match ratios mr df = some n) :
    ∃ r, r ∈ df ∧ r.name = n := by
  unfold TDP.get_single_direct_match at h
  cases hio : indexOfFirst mr ratios with
  | none => simp [hio] at h
  | some k =>
    rw [hio] at h
    obtain ⟨r, hr, hrn⟩ := Option.map_eq_some'.1 h
    exact ⟨r, List.get?_mem hr, hrn⟩

/-- The head of a list is a member. -/
theorem head?_mem_of_eq_some {α : Type} {l : List α} {a : α}
    (h : l.head? = some a) : a ∈ l := by
  cases l with
  | nil => cases h
  | cons x xs =>
    simp only [List.head?_cons, Option.some.injEq] at h
    exact h ▸ List.mem_cons_self x xs

/-- Name from the dataset has a first matching row, so the constant-power
lookup succeeds. -/
theorem get_cpu_constant_power_of_mem {df : List CpuRow} {n : String}
    (h : n ∈ df.map CpuRow.name) :
    ∃ p, TDP.get_cpu_constant_power n df = some p := by
  obtain ⟨r, hr, rfl⟩ := List.mem_map.1 h
  have hmem : r ∈ df.filter (fun x => x.name == r.name) :=
    List.mem_filter.2 ⟨hr, by simp⟩
  cases hf : df.filter (fun x => x.name == r.name) with
  | nil => rw [hf] at hmem; simp at hmem
  | cons a l => exact ⟨a.tdp, by simp [TDP.get_cpu_constant_power, hf]⟩

/-- C10: whenever the matching procedure returns a model name, that name
is an element of the dataset's `Name` column, and the constant-power
lookup on it succeeds (its element access cannot fail). -/
theorem matched_name_in_dataset (rf tf : String → String → Nat) (m : String)
    (df : List CpuRow) (g : Bool) (name : String)
    (h : TDP.get_matching_cpu rf tf m df g = .ok (some name)) :
    name ∈ df.map CpuRow.name ∧
    ∃ p, TDP.get_cpu_constant_power name df = some p := by
  have hmem : name ∈ df.map CpuRow.name := by
    unfold TDP.get_matching_cpu at h
    cases hd : listMax (TDP.get_direct_matches rf m df) with
    | none => simp [hd] at h
    | some maxd =>
      cases ht : listMax (TDP.get_token_set_matches tf m df) with
      | none => simp [hd, ht] at h
      | some maxt =>
        by_cases hge : 100 ≤ maxd
        · cases hs : TDP.get_single_direct_match
            (TDP.get_direct_matches rf m df) maxd df with
          | none => simp [hd, ht, hge, hs] at h
          | some n =>
            have hn : n = name := by simp [hd, ht, hge, hs] at h; exact h
            obtain ⟨r, hr, hrn⟩ := get_single_direct_match_inv hs
            exact List.mem_map.2 ⟨r, hr, hrn.trans hn⟩
        · by_cases htl : maxt < 100
          · simp [hd, ht, hge, htl] at h
          · cases hc : TDP.get_cpus df
              (TDP.get_max_idxs (TDP.get_token_set_matches tf m df) maxt) with
            | none => simp [hd, ht, hge, htl, hc] at h
            | some l =>
              by_cases hcond : (l ≠ [] ∧ l.length = 1) ∨ g = true
              · cases hh : l.head? with
                | none => simp [hd, ht, hge, htl, hc, hcond, hh] at h
                | some n =>
                  have hn : n = name := by
                    simp [hd, ht, hge, htl, hc, hcond, hh] at h
                    exact h
                  obtain ⟨r, hr, hrn⟩ :=
                    get_cpus_mem hc n (head?_mem_of_eq_some hh)
                  exact List.mem_map.2 ⟨r, hr, hrn.trans hn⟩
              · simp [hd, ht, hge, htl, hc, hcond] at h
  exact ⟨hmem, get_cpu_constant_power_of_mem hmem⟩

/-- C10 witness: a direct match on "x" returns a dataset name on which
the constant-power lookup succeeds. -/
theorem matched_name_in_dataset_witness :
    TDP.get_matching_cpu ratioEqModel (fun _ _ => 0) "x" [⟨"x", 7⟩] false
      = .ok (some "x") ∧
    ("x" ∈ [(⟨"x", 7⟩ : CpuRow)].map CpuRow.name ∧
      ∃ p, TDP.get_cpu_constant_power "x" [⟨"x", 7⟩] = some p) :=
  ⟨rfl, matched_name_in_dataset ratioEqModel (fun _ _ => 0) "x" [⟨"x", 7⟩]
    false "x" rfl⟩

/-- C5: `IntelRAPL` construction raises the platform-unsupported error
whenever the OS is not Linux (regardless of whether the RAPL path exists),
raises the source-not-found error when the platform is supported but the
path is missing, and succeeds otherwise; the `Except` result makes the
three outcomes mutually exclusive. -/
theorem rapl_setup_errors (system : String) (rapl_dir_exists : Bool) :
    (IntelRAPL.is_platform_supported system = false →
      IntelRAPL.setup_rapl system rapl_dir_exists =
        .error .platformUnsupported) ∧
    (IntelRAPL.is_platform_supported system = true → rapl_dir_exists = false →
      IntelRAPL.setup_rapl system rapl_dir_exists = .error .sourceNotFound) ∧
    (IntelRAPL.is_platform_supported system = true → rapl_dir_exists = true →
      IntelRAPL.setup_rapl system rapl_dir_exists = .ok ()) := by
  refine ⟨fun h => ?_, fun h1 h2 => ?_, fun h1 h2 => ?_⟩ <;>
    simp [IntelRAPL.setup_rapl, *]

/-- C5 witness: on a non-Linux platform the construction fails with the
platform error; on Linux with a missing path it fails with the
source-not-found error; on Linux with the path present it succeeds. -/
theorem rapl_setup_errors_witness :
    IntelRAPL.setup_rapl "win32" true = .error .platformUnsupported ∧
    IntelRAPL.setup_rapl "linux" false = .error .sourceNotFound ∧
    IntelRAPL.setup_rapl "linux" true = .ok () :=
  ⟨(rapl_setup_errors "win32" true).1 (by decide),
   (rapl_setup_errors "linux" false).2.1 (by decide) rfl,
   (rapl_setup_errors "linux" true).2.2 (by decide) rfl⟩

/-- C6: when reading or parsing the Intel Power Gadget log fails, the
sampling operation returns the empty mapping instead of raising (the model
of `get_cpu_details` is total, and the exception branch yields `[]`). -/
theorem powergadget_parse_failure_empty :
    IntelPowerGadget.get_cpu_details (.error ()) = [] := rfl

/-- C7: CPU model resolution is deterministic — two runs of the resolver
pipeline on the same detected model string, the same reference dataset and
the same similarity functions produce the same (model, tdp) outcome. -/
theorem resolution_deterministic (rf tf : String → String → Nat)
    (det : Option String) (df : List CpuRow)
    (p q : Except Unit (String × Option Int))
    (h1 : TDP.main rf tf det df = p) (h2 : TDP.main rf tf det df = q) :
    p = q := h1.symm.trans h2

/-- C7 witness: two runs on an undetected CPU agree. -/
theorem resolution_deterministic_witness :
    (Except.ok (("Unknown" : String), (none : Option Int)) :
        Except Unit (String × Option Int)) = .ok ("Unknown", none) :=
  resolution_deterministic (fun _ _ => 0) (fun _ _ => 0) none [] _ _ rfl rfl
